import Mathlib

/-!
# ascii-play — verification of the frame rendering and playback-pacing pipeline

Shallow embedding of `src/main.js`.  JavaScript numbers are modelled as
exact rationals (`ℚ`); `Math.floor` is `Int.floor`, `Math.round x` is
`⌊x + 1/2⌋` (ECMAScript rounds half toward +∞); JavaScript strings are
`List Char`; byte buffers are `List ℕ`.
-/

namespace AsciiPlay

/-- JavaScript `Math.round`: the integer closest to `x`, half-way cases
rounded toward `+∞`; equivalently `⌊x + 1/2⌋`. -/
def jsRound (x : ℚ) : ℤ := ⌊x + 1 / 2⌋

/-- `ASCII_CHARS = ' .:-=+*#%@'` (src/main.js line 7), darkest to brightest. -/
def ASCII_CHARS : List Char := [' ', '.', ':', '-', '=', '+', '*', '#', '%', '@']

/-- `RESET = '\x1b[0m'` (src/main.js line 13). -/
def RESET : List Char := "\x1b[0m".toList

/-- `rgbToAnsi256` (src/main.js lines 15–29): 256-color quantization. -/
def rgbToAnsi256 (r g b : ℕ) : ℤ :=
  if r = g ∧ g = b then
    if r < 8 then 16
    else if 248 < r then 231
    else jsRound (((r : ℚ) - 8) / 247 * 24) + 232
  else
    16 + 36 * jsRound ((r : ℚ) / 255 * 5)
       + 6 * jsRound ((g : ℚ) / 255 * 5)
       + jsRound ((b : ℚ) / 255 * 5)

/-- The color-quantization formula exactly as §4.2 of the spec words it:
grayscale ramp when `r==g==b` (below 8 → 16, above 248 → 231, otherwise
`232 + round((r-8)/247*24)`), else the 6×6×6 cube
`16 + 36*round(r/255*5) + 6*round(g/255*5) + round(b/255*5)`. -/
def specColorIndex (r g b : ℕ) : ℤ :=
  if r = g ∧ g = b then
    if r < 8 then 16
    else if 248 < r then 231
    else 232 + jsRound (((r : ℚ) - 8) / 247 * 24)
  else
    16 + 36 * jsRound ((r : ℚ) / 255 * 5)
       + 6 * jsRound ((g : ℚ) / 255 * 5)
       + jsRound ((b : ℚ) / 255 * 5)

/-- `calculateAspectRatioDimensions` (src/main.js lines 38–58), with the
terminal size passed explicitly (the source reads it from `getTerminalSize`). -/
def calculateAspectRatioDimensions (videoWidth videoHeight : ℚ)
    (termWidth termHeight : ℤ) : ℤ × ℤ :=
  let maxHeight : ℤ := termHeight - 2
  let maxWidth : ℤ := termWidth
  let charAspectRatio : ℚ := 0.5
  let videoAspectRatio : ℚ := videoWidth / videoHeight
  let width : ℤ := maxWidth
  let height : ℤ := ⌊((width : ℚ) * charAspectRatio) / videoAspectRatio⌋
  if maxHeight < height then
    (⌊((maxHeight : ℚ) * videoAspectRatio) / charAspectRatio⌋, maxHeight)
  else
    (width, height)

/-- `brightness` of a pixel (src/main.js line 199):
`(r*0.299 + g*0.587 + b*0.114) / 255`. -/
def brightness (r g b : ℕ) : ℚ :=
  ((r : ℚ) * 0.299 + (g : ℚ) * 0.587 + (b : ℚ) * 0.114) / 255

/-- `charIndex` (src/main.js line 200):
`Math.floor(brightness * (ASCII_CHARS.length - 1))`. -/
def charIndex (r g b : ℕ) : ℤ :=
  ⌊brightness r g b * ((ASCII_CHARS.length : ℚ) - 1)⌋

/-- The glyph chosen for a pixel (src/main.js line 201): `ASCII_CHARS[charIndex]`. -/
def glyphOf (r g b : ℕ) : Char :=
  ASCII_CHARS.getD (charIndex r g b).toNat ' '

/-- C1 counterexample: a 1000×1 source video on an 80×24 terminal (all inputs
positive) makes the Dimension Fitter return height 0, violating the claimed
lower bound `height ≥ 1` — the source never clamps to a minimum of 1. -/
theorem dimensionFitter_height_zero :
    (calculateAspectRatioDimensions 1000 1 80 24).2 = 0 ∧
    ¬ (1 ≤ (calculateAspectRatioDimensions 1000 1 80 24).2) := by
  unfold calculateAspectRatioDimensions
  norm_num

/-- C1 (amended): for every positive `videoWidth`, `videoHeight`,
`terminalColumns`, `terminalRows`, the Dimension Fitter's result satisfies the
upper bounds `width ≤ terminalColumns` and `height ≤ terminalRows - 2`.  (The
claimed lower bounds `width ≥ 1`, `height ≥ 1` do not hold in general, see the
counterexample.) -/
theorem dimensionFitter_upper_bounds (videoWidth videoHeight : ℚ) (termWidth termHeight : ℤ)
    (hvw : 0 < videoWidth) (hvh : 0 < videoHeight)
    (_hc : 0 < termWidth) (_hr : 0 < termHeight) :
    (calculateAspectRatioDimensions videoWidth videoHeight termWidth termHeight).1 ≤ termWidth ∧
    (calculateAspectRatioDimensions videoWidth videoHeight termWidth termHeight).2 ≤
      termHeight - 2 := by
  have ha : 0 < videoWidth / videoHeight := div_pos hvw hvh
  simp only [calculateAspectRatioDimensions]
  split
  case isTrue h =>
    refine ⟨?_, le_refl _⟩
    set a : ℚ := videoWidth / videoHeight with ha_def
    have h1 : ((termHeight - 2 : ℤ) : ℚ) + 1 ≤ ((termWidth : ℚ) * 0.5) / a := by
      have h2 : (termHeight - 2) + 1 ≤ ⌊((termWidth : ℚ) * 0.5) / a⌋ := Int.add_one_le_of_lt h
      calc ((termHeight - 2 : ℤ) : ℚ) + 1 = ((termHeight - 2 + 1 : ℤ) : ℚ) := by push_cast; ring
        _ ≤ (⌊((termWidth : ℚ) * 0.5) / a⌋ : ℚ) := by exact_mod_cast h2
        _ ≤ _ := Int.floor_le _
    have h3 : (((termHeight - 2 : ℤ) : ℚ) + 1) * a ≤ (termWidth : ℚ) * 0.5 :=
      (le_div_iff₀ ha).mp h1
    have h4 : (((termHeight - 2 : ℤ) : ℚ) * a) / 0.5 ≤ (termWidth : ℚ) := by
      rw [div_le_iff₀ (by norm_num : (0:ℚ) < 0.5)]
      nlinarith
    calc ⌊(((termHeight - 2 : ℤ) : ℚ) * a) / 0.5⌋ ≤ ⌊((termWidth : ℤ) : ℚ)⌋ :=
          Int.floor_le_floor h4
      _ = termWidth := Int.floor_intCast _
  case isFalse h =>
    exact ⟨le_refl _, le_of_not_lt h⟩

/-- C1 witness: the amended bounds at a 640×480 video on an 80×24 terminal. -/
theorem dimensionFitter_upper_bounds_witness :
    (calculateAspectRatioDimensions 640 480 80 24).1 ≤ 80 ∧
    (calculateAspectRatioDimensions 640 480 80 24).2 ≤ 24 - 2 :=
  dimensionFitter_upper_bounds 640 480 80 24 (by norm_num) (by norm_num) (by norm_num)
    (by norm_num)

/-- C3: for every component-wise byte-valued `(r,g,b)`, `rgbToAnsi256` computes
exactly the spec's quantization formula; in particular `(0,0,0) ↦ 16`,
`(255,255,255) ↦ 231`, `(128,128,128)` lands in the grayscale ramp
`[232,255]`, and `(255,0,0) ↦ 196`. -/
theorem colorQuantization_spec :
    (∀ r g b : ℕ, r ≤ 255 → g ≤ 255 → b ≤ 255 →
        rgbToAnsi256 r g b = specColorIndex r g b) ∧
    rgbToAnsi256 0 0 0 = 16 ∧
    rgbToAnsi256 255 255 255 = 231 ∧
    (232 ≤ rgbToAnsi256 128 128 128 ∧ rgbToAnsi256 128 128 128 ≤ 255) ∧
    rgbToAnsi256 255 0 0 = 196 := by
  have h128 : rgbToAnsi256 128 128 128 = 244 := by norm_num [rgbToAnsi256, jsRound]
  refine ⟨?_, by decide, by decide, ⟨by omega, by omega⟩, by norm_num [rgbToAnsi256, jsRound]⟩
  intro r g b _ _ _
  unfold rgbToAnsi256 specColorIndex
  split_ifs <;> ring

/-- C3 witness: the quantizer agrees with the spec formula at `(10,20,30)`. -/
theorem colorQuantization_spec_witness :
    rgbToAnsi256 10 20 30 = specColorIndex 10 20 30 :=
  colorQuantization_spec.1 10 20 30 (by norm_num) (by norm_num) (by norm_num)

/-- C4: for every byte-valued pixel the glyph index
`⌊brightness * (rampLength - 1)⌋` lies in `[0, 9]` and the chosen glyph is the
ramp character at that index; brightness 0 yields the space character and
brightness 1 yields `'@'`. -/
theorem pixelMapper_glyph :
    (∀ r g b : ℕ, r ≤ 255 → g ≤ 255 → b ≤ 255 →
        0 ≤ charIndex r g b ∧ charIndex r g b ≤ 9 ∧
        glyphOf r g b = ASCII_CHARS.getD (charIndex r g b).toNat ' ') ∧
    (∀ r g b : ℕ, brightness r g b = 0 → glyphOf r g b = ' ') ∧
    (∀ r g b : ℕ, brightness r g b = 1 → glyphOf r g b = '@') := by
  have hlen : ((ASCII_CHARS.length : ℚ) - 1) = 9 := by norm_num [ASCII_CHARS]
  refine ⟨?_, ?_, ?_⟩
  · intro r g b hr hg hb
    have h0 : 0 ≤ brightness r g b := by
      unfold brightness
      positivity
    have h1 : brightness r g b ≤ 1 := by
      unfold brightness
      rw [div_le_one (by norm_num : (0:ℚ) < 255)]
      have cr : (r:ℚ) ≤ 255 := by exact_mod_cast hr
      have cg : (g:ℚ) ≤ 255 := by exact_mod_cast hg
      have cb : (b:ℚ) ≤ 255 := by exact_mod_cast hb
      nlinarith
    refine ⟨?_, ?_, rfl⟩
    · unfold charIndex
      rw [hlen]
      exact Int.floor_nonneg.mpr (by positivity)
    · unfold charIndex
      rw [hlen]
      calc ⌊brightness r g b * 9⌋ ≤ ⌊(9:ℚ)⌋ := Int.floor_le_floor (by nlinarith)
        _ = 9 := by norm_num
  · intro r g b h
    unfold glyphOf charIndex
    rw [h]
    norm_num [ASCII_CHARS]
  · intro r g b h
    unfold glyphOf charIndex
    rw [h, hlen]
    norm_num [ASCII_CHARS]
    decide

/-- C4 witness: bounds at `(255,0,0)` and the two brightness endpoints. -/
theorem pixelMapper_glyph_witness :
    (0 ≤ charIndex 255 0 0 ∧ charIndex 255 0 0 ≤ 9 ∧
      glyphOf 255 0 0 = ASCII_CHARS.getD (charIndex 255 0 0).toNat ' ') ∧
    glyphOf 0 0 0 = ' ' ∧ glyphOf 255 255 255 = '@' :=
  ⟨pixelMapper_glyph.1 255 0 0 (by norm_num) (by norm_num) (by norm_num),
   pixelMapper_glyph.2.1 0 0 0 (by norm_num [brightness]),
   pixelMapper_glyph.2.2 255 255 255 (by norm_num [brightness])⟩

/-- State of the Frame Ingestor (src/main.js lines 125 and 127): the
accumulation `buffer` and the `frameQueue` of sliced complete frames. -/
structure IngestState where
  buffer : List ℕ
  frameQueue : List (List ℕ)
deriving DecidableEq

/-- The `while (buffer.length >= frameSize)` loop (src/main.js lines 144–156):
slice a `frameSize`-byte prefix off the buffer and push it onto the queue until
fewer than `frameSize` bytes remain.  (The JavaScript loop never terminates
when `frameSize = 0`; the model returns immediately then, and every theorem
below assumes `0 < frameSize`, which holds for `frameSize = width*height*3`
with positive dimensions.) -/
def drainFrames (frameSize : ℕ) (buffer : List ℕ) (queue : List (List ℕ)) :
    List ℕ × List (List ℕ) :=
  if _h : frameSize ≠ 0 ∧ frameSize ≤ buffer.length then
    drainFrames frameSize (buffer.drop frameSize) (queue ++ [buffer.take frameSize])
  else
    (buffer, queue)
termination_by buffer.length
decreasing_by
  simp only [List.length_drop]
  omega

/-- The `ffmpeg.stdout.on('data')` handler's buffering step (src/main.js
lines 141–156): concatenate the chunk onto the accumulation buffer, then drain
complete frames onto the queue. -/
def ingestChunk (frameSize : ℕ) (s : IngestState) (chunk : List ℕ) : IngestState :=
  let d := drainFrames frameSize (s.buffer ++ chunk) s.frameQueue
  ⟨d.1, d.2⟩

/-- Feeding a whole sequence of stream chunks, starting from the empty buffer
and queue (src/main.js lines 125 and 127). -/
def ingestAll (frameSize : ℕ) (chunks : List (List ℕ)) : IngestState :=
  chunks.foldl (ingestChunk frameSize) ⟨[], []⟩

theorem drainFrames_eq_pos (fs : ℕ) (buf : List ℕ) (q : List (List ℕ))
    (h : fs ≠ 0 ∧ fs ≤ buf.length) :
    drainFrames fs buf q = drainFrames fs (buf.drop fs) (q ++ [buf.take fs]) := by
  conv_lhs => rw [drainFrames]
  rw [dif_pos h]

theorem drainFrames_eq_neg (fs : ℕ) (buf : List ℕ) (q : List (List ℕ))
    (h : ¬(fs ≠ 0 ∧ fs ≤ buf.length)) :
    drainFrames fs buf q = (buf, q) := by
  rw [drainFrames, dif_neg h]

/-- Draining conserves bytes: queued frames followed by the residual buffer
spell out the queued frames and buffer it started from. -/
theorem drainFrames_flatten (fs : ℕ) (buf : List ℕ) (q : List (List ℕ)) :
    ((drainFrames fs buf q).2).flatten ++ (drainFrames fs buf q).1 = q.flatten ++ buf := by
  induction buf, q using drainFrames.induct fs with
  | case1 buf q h ih =>
    rw [drainFrames_eq_pos fs buf q h, ih]
    simp
  | case2 buf q h =>
    rw [drainFrames_eq_neg fs buf q h]

/-- After draining, the residual buffer holds fewer than `frameSize` bytes. -/
theorem drainFrames_buffer_lt (fs : ℕ) (buf : List ℕ) (q : List (List ℕ)) (hfs : 0 < fs) :
    ((drainFrames fs buf q).1).length < fs := by
  induction buf, q using drainFrames.induct fs with
  | case1 buf q h ih =>
    rw [drainFrames_eq_pos fs buf q h]
    exact ih
  | case2 buf q h =>
    rw [drainFrames_eq_neg fs buf q h]
    simp only [not_and, not_le] at h
    exact h (by omega)

/-- Every frame sliced off by draining has length exactly `frameSize`. -/
theorem drainFrames_sizes (fs : ℕ) (buf : List ℕ) (q : List (List ℕ))
    (hq : ∀ f ∈ q, f.length = fs) :
    ∀ f ∈ (drainFrames fs buf q).2, f.length = fs := by
  induction buf, q using drainFrames.induct fs with
  | case1 buf q h ih =>
    rw [drainFrames_eq_pos fs buf q h]
    refine ih ?_
    intro f hf
    rcases List.mem_append.mp hf with hf | hf
    · exact hq f hf
    · rw [List.mem_singleton.mp hf]
      exact List.length_take_of_le h.2
  | case2 buf q h =>
    rw [drainFrames_eq_neg fs buf q h]
    exact hq

/-- Draining appends exactly `buffer.length / frameSize` frames to the queue. -/
theorem drainFrames_count (fs : ℕ) (buf : List ℕ) (q : List (List ℕ)) (hfs : 0 < fs) :
    ((drainFrames fs buf q).2).length = q.length + buf.length / fs := by
  induction buf, q using drainFrames.induct fs with
  | case1 buf q h ih =>
    rw [drainFrames_eq_pos fs buf q h, ih]
    simp only [List.length_append, List.length_singleton, List.length_drop]
    rw [Nat.div_eq_sub_div hfs h.2]
    omega
  | case2 buf q h =>
    rw [drainFrames_eq_neg fs buf q h]
    simp only [not_and, not_le] at h
    rw [Nat.div_eq_of_lt (h (by omega))]
    simp

/-- Draining, feeding more bytes, and draining again is the same as draining
the concatenation: the loop's progress never depends on chunk boundaries. -/
theorem drainFrames_drainFrames (fs : ℕ) (buf : List ℕ) (q : List (List ℕ)) (c : List ℕ) :
    drainFrames fs ((drainFrames fs buf q).1 ++ c) (drainFrames fs buf q).2 =
      drainFrames fs (buf ++ c) q := by
  induction buf, q using drainFrames.induct fs with
  | case1 buf q h ih =>
    rw [drainFrames_eq_pos fs buf q h, ih,
      drainFrames_eq_pos fs (buf ++ c) q ⟨h.1, le_trans h.2 (by simp)⟩,
      List.take_append_of_le_length h.2, List.drop_append_of_le_length h.2]
  | case2 buf q h =>
    rw [drainFrames_eq_neg fs buf q h]

theorem ingestChunk_append (fs : ℕ) (s : IngestState) (c₁ c₂ : List ℕ) :
    ingestChunk fs (ingestChunk fs s c₁) c₂ = ingestChunk fs s (c₁ ++ c₂) := by
  simp only [ingestChunk]
  rw [drainFrames_drainFrames, List.append_assoc]

/-- The ingestor's final state depends only on the concatenated byte stream,
not on how it was chunked. -/
theorem ingestAll_eq_flatten (fs : ℕ) (chunks : List (List ℕ)) :
    ingestAll fs chunks = ingestChunk fs ⟨[], []⟩ chunks.flatten := by
  induction chunks using List.reverseRecOn with
  | nil =>
    simp only [ingestAll, List.foldl_nil, List.flatten_nil, ingestChunk, List.append_nil]
    rw [drainFrames_eq_neg fs [] [] (by simp)]
  | append_singleton chunks c ih =>
    simp only [ingestAll, List.foldl_append, List.foldl_cons, List.foldl_nil]
    rw [show List.foldl (ingestChunk fs) ⟨[], []⟩ chunks = ingestAll fs chunks from rfl, ih,
      ingestChunk_append]
    simp

theorem flatten_length_of_sizes (fs : ℕ) (l : List (List ℕ)) (h : ∀ f ∈ l, f.length = fs) :
    l.flatten.length = l.length * fs := by
  induction l with
  | nil => simp
  | cons a t ih =>
    simp only [List.flatten_cons, List.length_append, List.length_cons]
    rw [h a (by simp), ih (fun f hf => h f (by simp [hf]))]
    ring

/-- C2: feeding the byte stream of `N` complete frames, however it is split
into chunks, enqueues exactly `N` frames of exactly `frameSize = w*h*3` bytes
each, whose concatenation is the original stream (original order), and the
final ingestor state is independent of the chunking. -/
theorem frameIngestor_reassembly (w h N : ℕ) (hw : 0 < w) (hh : 0 < h)
    (chunks : List (List ℕ)) (hlen : chunks.flatten.length = N * (w * h * 3)) :
    (ingestAll (w * h * 3) chunks).frameQueue.length = N ∧
    (∀ f ∈ (ingestAll (w * h * 3) chunks).frameQueue, f.length = w * h * 3) ∧
    (ingestAll (w * h * 3) chunks).frameQueue.flatten = chunks.flatten ∧
    ∀ chunks' : List (List ℕ), chunks'.flatten = chunks.flatten →
      ingestAll (w * h * 3) chunks' = ingestAll (w * h * 3) chunks := by
  have hfs : 0 < w * h * 3 := by positivity
  have key : ingestAll (w * h * 3) chunks =
      ⟨(drainFrames (w * h * 3) chunks.flatten []).1,
       (drainFrames (w * h * 3) chunks.flatten []).2⟩ := by
    rw [ingestAll_eq_flatten]
    simp [ingestChunk]
  have hcount : (drainFrames (w * h * 3) chunks.flatten []).2.length = N := by
    rw [drainFrames_count _ _ _ hfs, hlen, Nat.mul_div_cancel N hfs]
    simp
  have hsizes : ∀ f ∈ (drainFrames (w * h * 3) chunks.flatten []).2, f.length = w * h * 3 :=
    drainFrames_sizes _ _ _ (by simp)
  have hcons := drainFrames_flatten (w * h * 3) chunks.flatten []
  simp only [List.flatten_nil, List.nil_append] at hcons
  have hflatlen : (drainFrames (w * h * 3) chunks.flatten []).2.flatten.length =
      N * (w * h * 3) := by
    rw [flatten_length_of_sizes _ _ hsizes, hcount]
  have hbuf : (drainFrames (w * h * 3) chunks.flatten []).1 = [] := by
    have hl := congrArg List.length hcons
    simp only [List.length_append] at hl
    rw [hflatlen, hlen] at hl
    exact List.length_eq_zero.mp (by omega)
  refine ⟨?_, ?_, ?_, ?_⟩
  · rw [key]
    exact hcount
  · rw [key]
    exact hsizes
  · rw [key]
    rw [hbuf, List.append_nil] at hcons
    exact hcons
  · intro chunks' hj
    rw [ingestAll_eq_flatten, ingestAll_eq_flatten, hj]

/-- C2 witness: two 3-byte frames (1×1 raster) delivered in chunks of sizes
1, 3 and 2. -/
theorem frameIngestor_reassembly_witness :
    (ingestAll (1 * 1 * 3) [[10], [20, 30, 40], [50, 60]]).frameQueue.length = 2 ∧
    (∀ f ∈ (ingestAll (1 * 1 * 3) [[10], [20, 30, 40], [50, 60]]).frameQueue,
      f.length = 1 * 1 * 3) ∧
    (ingestAll (1 * 1 * 3) [[10], [20, 30, 40], [50, 60]]).frameQueue.flatten =
      [[10], [20, 30, 40], [50, 60]].flatten ∧
    ∀ chunks' : List (List ℕ), chunks'.flatten = [[10], [20, 30, 40], [50, 60]].flatten →
      ingestAll (1 * 1 * 3) chunks' = ingestAll (1 * 1 * 3) [[10], [20, 30, 40], [50, 60]] :=
  frameIngestor_reassembly 1 1 2 (by decide) (by decide) [[10], [20, 30, 40], [50, 60]]
    (by decide)

/-- C6: after processing any sequence of chunks the accumulation buffer holds
strictly fewer than `frameSize = w*h*3` bytes.  (Every intermediate state is
`ingestAll` of a prefix of the chunk sequence, so this covers the state after
every chunk.) -/
theorem frameIngestor_residual (w h : ℕ) (hw : 0 < w) (hh : 0 < h)
    (chunks : List (List ℕ)) :
    ((ingestAll (w * h * 3) chunks).buffer).length < w * h * 3 := by
  have hfs : 0 < w * h * 3 := by positivity
  rw [ingestAll_eq_flatten]
  simp only [ingestChunk, List.nil_append]
  exact drainFrames_buffer_lt _ _ _ hfs

/-- C6 witness: a 1×1 raster fed a single 2-byte chunk. -/
theorem frameIngestor_residual_witness :
    ((ingestAll (1 * 1 * 3) [[7, 8]]).buffer).length < 1 * 1 * 3 :=
  frameIngestor_residual 1 1 (by decide) (by decide) [[7, 8]]

/-- C10: byte conservation — the concatenation of all enqueued frames followed
by the residual buffer equals the concatenation of all bytes received, for
every chunk sequence: no byte is lost, duplicated or reordered. -/
theorem frameIngestor_conservation (frameSize : ℕ) (_hfs : 0 < frameSize)
    (chunks : List (List ℕ)) :
    (ingestAll frameSize chunks).frameQueue.flatten ++ (ingestAll frameSize chunks).buffer =
      chunks.flatten := by
  rw [ingestAll_eq_flatten]
  simp only [ingestChunk, List.nil_append]
  have hc := drainFrames_flatten frameSize chunks.flatten []
  simpa using hc

/-- C10 witness: frame size 3, one 4-byte chunk. -/
theorem frameIngestor_conservation_witness :
    (ingestAll 3 [[1, 2, 3, 4]]).frameQueue.flatten ++ (ingestAll 3 [[1, 2, 3, 4]]).buffer =
      [[1, 2, 3, 4]].flatten :=
  frameIngestor_conservation 3 (by decide) [[1, 2, 3, 4]]

/-- `frameInterval = 1000 / videoInfo.fps` (src/main.js line 126), in
milliseconds. -/
def frameInterval (fps : ℚ) : ℚ := 1000 / fps

/-- Playback Scheduler state (src/main.js lines 127–128 together with the
event loop's pending timeout): the `frameQueue`, the `isPlaying` flag, and the
absolute wall-clock fire time of the pending
`setTimeout(playNextFrame, frameInterval)` when one is pending. -/
structure SchedState where
  frameQueue : List (List ℕ)
  isPlaying : Bool
  timer : Option ℚ
deriving DecidableEq

/-- `playNextFrame` (src/main.js lines 131–139), invoked at wall-clock time
`now`: with a non-empty queue it shifts the head frame, renders it (returned
in the second component) and registers a timeout at `now + frameInterval`;
with an empty queue it renders nothing, clears `isPlaying` and registers
nothing. -/
def playNextFrame (fps now : ℚ) (s : SchedState) : SchedState × Option (List ℕ) :=
  match s.frameQueue with
  | f :: rest => (⟨rest, s.isPlaying, some (now + frameInterval fps)⟩, some f)
  | [] => (⟨[], false, s.timer⟩, none)

/-- A pending timeout firing at its scheduled time `t`: the timeout is
consumed and `playNextFrame` runs. -/
def fireTimer (fps t : ℚ) (s : SchedState) : SchedState × Option (List ℕ) :=
  playNextFrame fps t ⟨s.frameQueue, s.isPlaying, none⟩

/-- C5: after rendering a frame the scheduler registers a timeout exactly
`frameInterval = 1000/fps` ms later; when the remaining queue is non-empty
that fire renders the next frame (so consecutive renders are exactly
`frameInterval` apart), and when the remaining queue is empty that fire
renders nothing and leaves the idle state — no pending timer, `isPlaying`
false — so no further render occurs until a new frame is enqueued.  An
invocation on an empty queue never renders. -/
theorem playbackScheduler_transitions (fps now : ℚ) (s : SchedState) :
    (∀ f f₂ rest, s.frameQueue = f :: f₂ :: rest →
        (playNextFrame fps now s).2 = some f ∧
        (playNextFrame fps now s).1.timer = some (now + frameInterval fps) ∧
        fireTimer fps (now + frameInterval fps) (playNextFrame fps now s).1 =
          (⟨rest, s.isPlaying, some (now + frameInterval fps + frameInterval fps)⟩,
            some f₂)) ∧
    (∀ f, s.frameQueue = [f] →
        (playNextFrame fps now s).2 = some f ∧
        (playNextFrame fps now s).1.timer = some (now + frameInterval fps) ∧
        fireTimer fps (now + frameInterval fps) (playNextFrame fps now s).1 =
          (⟨[], false, none⟩, none)) ∧
    (s.frameQueue = [] →
        (playNextFrame fps now s).2 = none ∧
        (playNextFrame fps now s).1.isPlaying = false ∧
        (playNextFrame fps now s).1.frameQueue = []) := by
  refine ⟨?_, ?_, ?_⟩
  · intro f f₂ rest hq
    simp [playNextFrame, fireTimer, hq]
  · intro f hq
    simp [playNextFrame, fireTimer, hq]
  · intro hq
    simp [playNextFrame, hq]

/-- C5 witness: at 25 fps, a two-frame queue renders the head and schedules
the next render 40 ms later; a one-frame queue's subsequent fire reaches the
idle state. -/
theorem playbackScheduler_transitions_witness :
    ((playNextFrame 25 0 ⟨[[1], [2]], true, none⟩).2 = some [1] ∧
      (playNextFrame 25 0 ⟨[[1], [2]], true, none⟩).1.timer = some (0 + frameInterval 25) ∧
      fireTimer 25 (0 + frameInterval 25) (playNextFrame 25 0 ⟨[[1], [2]], true, none⟩).1 =
        (⟨[], true, some (0 + frameInterval 25 + frameInterval 25)⟩, some [2])) ∧
    ((playNextFrame 25 0 ⟨[[9]], true, none⟩).2 = some [9] ∧
      (playNextFrame 25 0 ⟨[[9]], true, none⟩).1.timer = some (0 + frameInterval 25) ∧
      fireTimer 25 (0 + frameInterval 25) (playNextFrame 25 0 ⟨[[9]], true, none⟩).1 =
        (⟨[], false, none⟩, none)) :=
  ⟨(playbackScheduler_transitions 25 0 _).1 [1] [2] [] rfl,
   (playbackScheduler_transitions 25 0 _).2.1 [9] rfl⟩

/-- The color-set escape sequence written before each glyph (src/main.js
line 205): `\x1b[38;5;${colorCode}m`. -/
def colorEscape (code : ℤ) : List Char :=
  "\x1b[38;5;".toList ++ (toString code).toList ++ ['m']

/-- One pixel's contribution to the output block (src/main.js lines 193–205):
read `(r,g,b)` at row-major index `(y*width + x)*3`, emit the color escape
immediately followed by the glyph. -/
def pixelString (frameBuffer : List ℕ) (width y x : ℕ) : List Char :=
  let index := (y * width + x) * 3
  let r := frameBuffer.getD index 0
  let g := frameBuffer.getD (index + 1) 0
  let b := frameBuffer.getD (index + 2) 0
  colorEscape (rgbToAnsi256 r g b) ++ [glyphOf r g b]

/-- The nested loop of `renderFrame` (src/main.js lines 189–208) building the
output block: for each row, append each pixel's escape+glyph in order, then
`RESET` and a newline. -/
def renderOutput (frameBuffer : List ℕ) (width height : ℕ) : List Char :=
  (List.range height).foldl (fun acc y =>
    ((List.range width).foldl (fun acc2 x => acc2 ++ pixelString frameBuffer width y x) acc)
      ++ RESET ++ ['\n']) []

/-- `renderFrame` (src/main.js lines 185–211) as the sequence of
`process.stdout.write` calls it performs, appended to the writes already made:
first the cursor-home escape `\x1b[H` (line 187), then the assembled block as
a single write (line 210) — nothing else. -/
def renderFrameWrites (frameBuffer : List ℕ) (width height : ℕ)
    (out : List (List Char)) : List (List Char) :=
  (out ++ ["\x1b[H".toList]) ++ [renderOutput frameBuffer width height]

theorem foldl_append_eq_flatten {α β : Type} (f : α → List β) (l : List α) (init : List β) :
    l.foldl (fun acc a => acc ++ f a) init = init ++ (l.map f).flatten := by
  induction l generalizing init with
  | nil => simp
  | cons a t ih => simp [ih, List.append_assoc]

/-- C8: for every frame the renderer appends exactly two writes to the output
stream — the cursor-home escape, then the whole assembled block as one bulk
write — independently of the pixel count, and touches nothing but the output
stream (the model is a pure function of the frame and the stream). -/
theorem frameRenderer_write_discipline (frameBuffer : List ℕ) (width height : ℕ)
    (out : List (List Char)) :
    renderFrameWrites frameBuffer width height out =
      out ++ ["\x1b[H".toList, renderOutput frameBuffer width height] ∧
    (renderFrameWrites frameBuffer width height out).length = out.length + 2 := by
  constructor
  · simp [renderFrameWrites]
  · simp [renderFrameWrites]

/-- C9: for a frame buffer of exactly `width*height*3` bytes the assembled
block is, row by row in row-major order, the concatenation of each pixel's
color escape followed by its glyph, each row terminated by the style-reset
sequence immediately before the newline. -/
theorem frameRenderer_output_format (frameBuffer : List ℕ) (width height : ℕ)
    (_hbuf : frameBuffer.length = width * height * 3) :
    renderOutput frameBuffer width height =
      ((List.range height).map (fun y =>
        ((List.range width).map (fun x => pixelString frameBuffer width y x)).flatten
          ++ RESET ++ ['\n'])).flatten := by
  unfold renderOutput
  have step : ∀ (acc : List Char) (y : ℕ),
      ((List.range width).foldl (fun acc2 x => acc2 ++ pixelString frameBuffer width y x) acc)
          ++ RESET ++ ['\n'] =
        acc ++ (((List.range width).map
          (fun x => pixelString frameBuffer width y x)).flatten ++ RESET ++ ['\n']) := by
    intro acc y
    rw [foldl_append_eq_flatten]
    simp [List.append_assoc]
  calc (List.range height).foldl (fun acc y =>
        ((List.range width).foldl (fun acc2 x => acc2 ++ pixelString frameBuffer width y x) acc)
          ++ RESET ++ ['\n']) []
      = (List.range height).foldl (fun acc y =>
          acc ++ (((List.range width).map
            (fun x => pixelString frameBuffer width y x)).flatten ++ RESET ++ ['\n'])) [] := by
        apply List.foldl_ext
        intro acc y _
        exact step acc y
    _ = ((List.range height).map (fun y =>
          ((List.range width).map (fun x => pixelString frameBuffer width y x)).flatten
            ++ RESET ++ ['\n'])).flatten := by
        rw [foldl_append_eq_flatten]
        simp

/-- C9 witness: a 1×1 red frame. -/
theorem frameRenderer_output_format_witness :
    renderOutput [255, 0, 0] 1 1 =
      ((List.range 1).map (fun y =>
        ((List.range 1).map (fun x => pixelString [255, 0, 0] 1 y x)).flatten
          ++ RESET ++ ['\n'])).flatten :=
  frameRenderer_output_format [255, 0, 0] 1 1 (by decide)

/-- The kinds of terminal/console writes `main.js` performs, one constructor
per source-level write: the four status `console.log` lines (102–105), the
cursor-hide escape (108), `console.clear()` (111), a `renderFrame` call's
writes (187/210), the cursor-show escape (165/171/178/233), a `console.error`
line (217/218/225/232) and the remaining `console.log` lines (166/179). -/
inductive TermWrite
  | infoLine
  | hideCursor
  | clearScreen
  | frameRender
  | showCursor
  | errLine
  | logLine
deriving DecidableEq

/-- The exit paths of the program: usage error (src/main.js lines 216–220),
missing input file (224–227), metadata-probe failure (rejection of
`getVideoInfo`, caught at 229–235), decoder spawn failure (`ffmpeg.on('error')`
at 170–173, then caught at 229–235), user interrupt (`SIGINT` handler at
176–181) and normal completion (`ffmpeg.on('close')` at 163–168). -/
inductive ExitPath
  | usageError
  | missingInput
  | metadataFailure
  | spawnFailure
  | userInterrupt
  | normalCompletion
deriving DecidableEq

/-- Writes performed before playback starts (src/main.js lines 102–111): four
status lines, cursor hide, screen clear. -/
def playbackPrefix : List TermWrite :=
  [.infoLine, .infoLine, .infoLine, .infoLine, .hideCursor, .clearScreen]

/-- The terminal writes of each exit path in program order, with `frames`
frames rendered before the terminating event (a spawn failure precedes any
frame; the pre-playback paths write nothing but their diagnostics). -/
def exitWrites : ExitPath → ℕ → List TermWrite
  | .usageError, _ => [.errLine, .errLine]
  | .missingInput, _ => [.errLine]
  | .metadataFailure, _ => [.errLine, .showCursor]
  | .spawnFailure, _ => playbackPrefix ++ [.showCursor, .errLine, .showCursor]
  | .userInterrupt, frames =>
      playbackPrefix ++ List.replicate frames .frameRender ++ [.showCursor, .logLine]
  | .normalCompletion, frames =>
      playbackPrefix ++ List.replicate frames .frameRender ++ [.showCursor, .logLine]

/-- One write's effect on cursor visibility: the hide escape hides, the show
escape shows, every other write leaves it unchanged. -/
def visStep : Bool → TermWrite → Bool := fun vis w =>
  match w with
  | TermWrite.hideCursor => false
  | TermWrite.showCursor => true
  | _ => vis

/-- Cursor visibility at the end of a write sequence; the cursor starts
visible. -/
def cursorVisibleAfter (writes : List TermWrite) : Bool :=
  writes.foldl visStep true

/-- C7 counterexample: on the missing-input-file exit path the program writes
only the diagnostic line and exits — no cursor-show sequence is ever written,
refuting "on every exit path the cursor-show sequence is written". -/
theorem cursorRestore_missingInput :
    TermWrite.showCursor ∉ exitWrites ExitPath.missingInput 0 := by
  decide

/-- C7 (amended): every exit path leaves the terminal cursor visible at exit:
each path that hides the cursor (normal completion, user interrupt, decoder
spawn failure) later writes the cursor-show sequence, the metadata-failure
path writes it too, and the missing-input and usage paths never hide it. -/
theorem cursorRestore_all_paths (p : ExitPath) (frames : ℕ) :
    cursorVisibleAfter (exitWrites p frames) = true ∧
    (TermWrite.hideCursor ∈ exitWrites p frames →
      TermWrite.showCursor ∈ exitWrites p frames) := by
  have hrep : ∀ (n : ℕ) (v : Bool),
      (List.replicate n TermWrite.frameRender).foldl visStep v = v := by
    intro n
    induction n with
    | zero => simp
    | succ k ih =>
      intro v
      rw [List.replicate_succ, List.foldl_cons,
        show visStep v TermWrite.frameRender = v from rfl]
      exact ih v
  cases p <;>
    refine ⟨?_, fun hmem => ?_⟩ <;>
      simp_all [exitWrites, cursorVisibleAfter, visStep, playbackPrefix, List.foldl_append,
        hrep]

/-- C7 witness: normal completion after two rendered frames restores the
cursor, and indeed writes the cursor-show sequence after having hidden it. -/
theorem cursorRestore_all_paths_witness :
    cursorVisibleAfter (exitWrites ExitPath.normalCompletion 2) = true ∧
    TermWrite.showCursor ∈ exitWrites ExitPath.normalCompletion 2 :=
  ⟨(cursorRestore_all_paths ExitPath.normalCompletion 2).1,
   (cursorRestore_all_paths ExitPath.normalCompletion 2).2 (by decide)⟩

end AsciiPlay
